import Mathlib

/-!
Shallow embedding of the configuration resolver in `src/config/settings.go`.

Strings are modelled as `List Char` (the config data is ASCII). The two-level
configuration store (`map[string]map[string]string` in Go) is modelled as an
association list with first-match lookup and in-place update, which matches
Go map semantics for the operations the program performs. The process
environment is an association list from variable names to values; a present
entry with an empty value models a variable set to the empty string.
-/

namespace Settings

abbrev Str := List Char

/-- Whitespace characters recognised by `strings.TrimSpace` (ASCII range). -/
def isSpace (c : Char) : Bool :=
  c = ' ' ∨ c = Char.ofNat 9 ∨ c = Char.ofNat 10 ∨ c = Char.ofNat 11 ∨
  c = Char.ofNat 12 ∨ c = Char.ofNat 13

/-- The quote characters of the cutset `"\"'"` in `strings.Trim(value, "\"'")`. -/
def isQuote (c : Char) : Bool :=
  c = Char.ofNat 34 ∨ c = Char.ofNat 39

def dropWhileP (p : Char → Bool) : Str → Str
  | [] => []
  | c :: cs => if p c then dropWhileP p cs else c :: cs

def trimBy (p : Char → Bool) (s : Str) : Str :=
  ((dropWhileP p ((dropWhileP p s).reverse)).reverse)

/-- `strings.TrimSpace`. -/
def trimSpace (s : Str) : Str := trimBy isSpace s

/-- `strings.Trim(value, "\"'")`: remove all leading and trailing quote characters. -/
def trimQuoteChars (s : Str) : Str := trimBy isQuote s

def toUpperChar (c : Char) : Char :=
  if 'a' ≤ c ∧ c ≤ 'z' then Char.ofNat (c.toNat - 32) else c

def toLowerChar (c : Char) : Char :=
  if 'A' ≤ c ∧ c ≤ 'Z' then Char.ofNat (c.toNat + 32) else c

/-- `strings.ToUpper` on the ASCII range. -/
def toUpperStr (s : Str) : Str := s.map toUpperChar

/-- `strings.ToLower` on the ASCII range. -/
def toLowerStr (s : Str) : Str := s.map toLowerChar

/-- `strings.SplitN(line, "=", 2)`: split at the first occurrence of `c`;
`none` when `c` does not occur (in Go, a one-element result). -/
def splitFirst (c : Char) : Str → Option (Str × Str)
  | [] => none
  | x :: xs =>
    if x = c then some ([], xs)
    else
      match splitFirst c xs with
      | none => none
      | some (l, r) => some (x :: l, r)

/-- First-match lookup in an association list (Go map read `m[k]`). -/
def lookupA (k : Str) : List (Str × β) → Option β
  | [] => none
  | (k₂, v) :: rest => if k₂ = k then some v else lookupA k rest

/-- Update-or-append in an association list (Go map write `m[k] = v`). -/
def setA (k : Str) (v : β) : List (Str × β) → List (Str × β)
  | [] => [(k, v)]
  | (k₂, v₂) :: rest => if k₂ = k then (k, v) :: rest else (k₂, v₂) :: setA k v rest

abbrev SectionMap := List (Str × Str)
abbrev Store := List (Str × SectionMap)
abbrev Env := List (Str × Str)

/-- `if _, exists := config[sec]; !exists { config[sec] = make(...) }`. -/
def ensureSection (store : Store) (sec : Str) : Store :=
  match lookupA sec store with
  | some _ => store
  | none => setA sec [] store

/-- `config[sec][key] = value`. When reached from `parseLine` the section map
always exists (the header that selected `sec` created it), so the `none`
branch is unreachable there. -/
def storeSet (store : Store) (sec k v : Str) : Store :=
  match lookupA sec store with
  | some m => setA sec (setA k v m) store
  | none => store

/-- One iteration of the scanner loop in `parseIniFile`: state is
(currentSection, store). -/
def parseLine (st : Str × Store) (raw : Str) : Str × Store :=
  let line := trimSpace raw
  if line = [] then st
  else if line.head? = some ';' ∨ line.head? = some '#' then st
  else if line.head? = some '[' ∧ line.getLast? = some ']' then
    let sec := trimSpace ((line.drop 1).dropLast)
    (sec, ensureSection st.2 sec)
  else
    match splitFirst '=' line with
    | none => st
    | some (l, r) =>
      if st.1 = [] then st
      else (st.1, storeSet st.2 st.1 (trimSpace l) (trimQuoteChars (trimSpace r)))

/-- The scanner loop of `parseIniFile`, starting from a given
(currentSection, store) state. -/
def parseIniLines (init : Str × Store) (lines : List Str) : Str × Store :=
  lines.foldl parseLine init

/-- What `bufio.Scanner` delivered: the lines successfully scanned, and
whether `scanner.Err()` reported a failure afterwards. -/
structure ScanOutcome where
  lines : List Str
  failed : Bool

/-- `parseIniFile`: consume the scanned lines mutating the store, then report
`scanner.Err()`. -/
def parseIniFile (sc : ScanOutcome) (store : Store) : Store × Bool :=
  ((parseIniLines ([], store) sc.lines).2, sc.failed)

/-- `init()`: `none` models `getConfigFilePath` failing (warning, empty store);
otherwise the file is parsed and a parse failure is only warned about, the
store built from the scanned lines is kept either way. Totality of this
function models "never crashes". -/
def initConfig : Option ScanOutcome → Store
  | none => []
  | some sc => (parseIniFile sc []).1

/-- `fmt.Sprintf("APP_%s_%s", strings.ToUpper(section), strings.ToUpper(key))`. -/
def envKeyName (sec key : Str) : Str :=
  "APP_".toList ++ toUpperStr sec ++ "_".toList ++ toUpperStr key

/-- `os.LookupEnv`. -/
def lookupEnv (env : Env) (k : Str) : Option Str := lookupA k env

/-- The `interface{}` values that flow through `GetConfig` in this program. -/
inductive Value where
  | vStr (s : Str)
  | vInt (n : Int)
  | vBool (b : Bool)
deriving DecidableEq

/-- `GetConfig`, state-passing form: the Go function reads the package-level
`config` map and returns a value; the store component records the store it
leaves behind. -/
def GetConfigS (env : Env) (store : Store) (sec key : Str) (d : Value) :
    Value × Store :=
  match lookupEnv env (envKeyName sec key) with
  | some v => (Value.vStr v, store)
  | none =>
    match lookupA sec store with
    | some m =>
      match lookupA key m with
      | some v => (Value.vStr v, store)
      | none => (d, store)
    | none => (d, store)

/-- The value `GetConfig` returns. -/
def GetConfig (env : Env) (store : Store) (sec key : Str) (d : Value) : Value :=
  (GetConfigS env store sec key d).1

/-- The file-lookup stage of `GetConfig` on its own (steps 2 of the Go body). -/
def fileValue (store : Store) (sec key : Str) : Option Str :=
  match lookupA sec store with
  | some m => lookupA key m
  | none => none

/-- Decimal digit list of a natural number (fuel-based, most significant first). -/
def natDecAux : Nat → Nat → List Char → List Char
  | 0, _, acc => acc
  | fuel + 1, n, acc =>
    let d := Char.ofNat (48 + n % 10)
    if n < 10 then d :: acc
    else natDecAux fuel (n / 10) (d :: acc)

def natDec (n : Nat) : Str := natDecAux (n + 1) n []

/-- `fmt.Sprintf("%d", n)`. -/
def goFormatInt (n : Int) : Str :=
  if n < 0 then '-' :: natDec n.natAbs else natDec n.toNat

/-- `fmt.Sprintf("%t", b)`. -/
def goFormatBool (b : Bool) : Str :=
  if b then "true".toList else "false".toList

def isDigit (c : Char) : Bool := '0' ≤ c ∧ c ≤ '9'

def digitsVal (s : Str) : Nat := s.foldl (fun a c => a * 10 + (c.toNat - 48)) 0

def goAtoiCore (neg : Bool) (rest : Str) : Option Int :=
  if rest = [] then none
  else if rest.all isDigit then
    let v : Int := if neg then -(digitsVal rest : Int) else (digitsVal rest : Int)
    if -9223372036854775808 ≤ v ∧ v ≤ 9223372036854775807 then some v else none
  else none

/-- `strconv.Atoi` (64-bit `int`): optional sign, then decimal digits,
rejecting empty input, non-digits and out-of-range values. -/
def goAtoi : Str → Option Int
  | '+' :: r => goAtoiCore false r
  | '-' :: r => goAtoiCore true r
  | r => goAtoiCore false r

/-- `getIntConfig`, state-passing form. -/
def getIntConfigS (env : Env) (store : Store) (sec key : Str) (d : Int) :
    Int × Store :=
  let r := GetConfigS env store sec key (Value.vStr (goFormatInt d))
  match r.1 with
  | Value.vStr sv =>
    match goAtoi sv with
    | some n => (n, r.2)
    | none => (d, r.2)
  | _ => (d, r.2)

/-- The value `getIntConfig` returns. -/
def getIntConfig (env : Env) (store : Store) (sec key : Str) (d : Int) : Int :=
  (getIntConfigS env store sec key d).1

/-- `getBoolConfig`, state-passing form. -/
def getBoolConfigS (env : Env) (store : Store) (sec key : Str) (d : Bool) :
    Bool × Store :=
  let r := GetConfigS env store sec key (Value.vStr (goFormatBool d))
  match r.1 with
  | Value.vStr sv =>
    let n := toLowerStr (trimSpace sv)
    if n = "true".toList ∨ n = "1".toList ∨ n = "yes".toList ∨ n = "on".toList then
      (true, r.2)
    else if n = "false".toList ∨ n = "0".toList ∨ n = "no".toList ∨ n = "off".toList then
      (false, r.2)
    else (d, r.2)
  | _ => (d, r.2)

/-- The value `getBoolConfig` returns. -/
def getBoolConfig (env : Env) (store : Store) (sec key : Str) (d : Bool) : Bool :=
  (getBoolConfigS env store sec key d).1

/-- The strings the boolean accessor maps to `true`. -/
def trueTokens : List Str := ["true".toList, "1".toList, "yes".toList, "on".toList]

/-- The strings the boolean accessor maps to `false`. -/
def falseTokens : List Str := ["false".toList, "0".toList, "no".toList, "off".toList]

/-! ### Helper lemmas -/

theorem lookupA_setA_self (k : Str) (v : β) (l : List (Str × β)) :
    lookupA k (setA k v l) = some v := by
  induction l with
  | nil => simp [setA, lookupA]
  | cons p rest ih =>
    obtain ⟨k₂, v₂⟩ := p
    by_cases h : k₂ = k
    · simp [setA, h, lookupA]
    · simp [setA, h, lookupA, ih]

theorem lookupA_setA_ne (k k₂ : Str) (v : β) (l : List (Str × β)) (h : k₂ ≠ k) :
    lookupA k₂ (setA k v l) = lookupA k₂ l := by
  induction l with
  | nil =>
    have h2 : ¬k = k₂ := fun he => h he.symm
    simp [setA, lookupA, h2]
  | cons p rest ih =>
    obtain ⟨k₃, v₃⟩ := p
    by_cases h₃ : k₃ = k
    · subst h₃
      have h2 : ¬k₃ = k₂ := fun he => h he.symm
      simp [setA, lookupA, h2]
    · simp [setA, h₃, lookupA, ih]

theorem splitFirst_of_not_mem (c : Char) (l : Str) (h : c ∉ l) :
    splitFirst c l = none := by
  induction l with
  | nil => rfl
  | cons x xs ih =>
    have hx : ¬x = c := fun he => h (he ▸ List.mem_cons_self x xs)
    have hm : c ∉ xs := fun hm => h (List.mem_cons_of_mem _ hm)
    simp [splitFirst, hx, ih hm]

theorem splitFirst_append (c : Char) (pre post : Str) (h : c ∉ pre) :
    splitFirst c (pre ++ c :: post) = some (pre, post) := by
  induction pre with
  | nil => simp [splitFirst]
  | cons x xs ih =>
    have hx : ¬x = c := fun he => h (he ▸ List.mem_cons_self x xs)
    have hm : c ∉ xs := fun hm => h (List.mem_cons_of_mem _ hm)
    simp [splitFirst, hx, ih hm]

theorem parseLine_header (raw cs : Str) (st : Store)
    (h1 : (trimSpace raw).head? = some '[')
    (h2 : (trimSpace raw).getLast? = some ']') :
    parseLine (cs, st) raw =
      (trimSpace (((trimSpace raw).drop 1).dropLast),
       ensureSection st (trimSpace (((trimSpace raw).drop 1).dropLast))) := by
  have hne : ¬trimSpace raw = [] := by
    intro h; rw [h] at h1; simp at h1
  have hc : ¬((trimSpace raw).head? = some ';' ∨ (trimSpace raw).head? = some '#') := by
    rw [h1]; simp
  simp only [parseLine]
  rw [if_neg hne, if_neg hc, if_pos ⟨h1, h2⟩]

theorem parseLine_no_section (raw : Str) (st : Store)
    (h : ¬((trimSpace raw).head? = some '[' ∧ (trimSpace raw).getLast? = some ']')) :
    parseLine ([], st) raw = ([], st) := by
  simp only [parseLine]
  by_cases h0 : trimSpace raw = []
  · rw [if_pos h0]
  · rw [if_neg h0]
    by_cases h1 : (trimSpace raw).head? = some ';' ∨ (trimSpace raw).head? = some '#'
    · rw [if_pos h1]
    · rw [if_neg h1, if_neg h]
      cases hsp : splitFirst '=' (trimSpace raw) with
      | none => rfl
      | some p =>
        obtain ⟨l, r⟩ := p
        simp

theorem parseIniLines_no_header (lines : List Str) (st : Store)
    (h : ∀ l ∈ lines,
      ¬((trimSpace l).head? = some '[' ∧ (trimSpace l).getLast? = some ']')) :
    parseIniLines ([], st) lines = ([], st) := by
  induction lines with
  | nil => rfl
  | cons a as ih =>
    have ha := parseLine_no_section a st (h a (List.mem_cons_self a as))
    have htail := ih (fun l hl => h l (List.mem_cons_of_mem _ hl))
    simp only [parseIniLines, List.foldl_cons] at htail ⊢
    rw [ha]
    exact htail

theorem GetConfigS_snd (env : Env) (store : Store) (sec key : Str) (d : Value) :
    (GetConfigS env store sec key d).2 = store := by
  simp only [GetConfigS]
  split
  · rfl
  · split
    · split
      · rfl
      · rfl
    · rfl

theorem getIntConfigS_snd (env : Env) (store : Store) (sec key : Str) (d : Int) :
    (getIntConfigS env store sec key d).2 = store := by
  simp only [getIntConfigS]
  cases hv : (GetConfigS env store sec key (Value.vStr (goFormatInt d))).1 with
  | vStr sv =>
    cases hA : goAtoi sv <;> simp [hv, hA, GetConfigS_snd]
  | vInt n => simp [hv, GetConfigS_snd]
  | vBool b => simp [hv, GetConfigS_snd]

theorem getBoolConfigS_snd (env : Env) (store : Store) (sec key : Str) (d : Bool) :
    (getBoolConfigS env store sec key d).2 = store := by
  simp only [getBoolConfigS]
  cases hv : (GetConfigS env store sec key (Value.vStr (goFormatBool d))).1 with
  | vStr sv =>
    simp only [hv]
    split_ifs <;> simp [GetConfigS_snd]
  | vInt n => simp [hv, GetConfigS_snd]
  | vBool b => simp [hv, GetConfigS_snd]

/-! ### Claim theorems -/

/-- Claim C1: if the environment variable `APP_<SECTION>_<KEY>` (section and
key upper-cased) is set — including to the empty string — then `GetConfig`
returns its raw string value, whatever the store holds and whatever the
default is. -/
theorem getConfig_env_wins (env : Env) (store : Store) (sec key : Str)
    (d : Value) (v : Str)
    (h : lookupEnv env (envKeyName sec key) = some v) :
    GetConfig env store sec key d = Value.vStr v := by
  simp [GetConfig, GetConfigS, h]

/-- Witness for C1: `APP_APP_PORT` set to the empty string beats both the
file value `9999` and the default `50100`. -/
theorem getConfig_env_wins_witness :
    GetConfig [("APP_APP_PORT".toList, [])]
      [("app".toList, [("port".toList, "9999".toList)])]
      "app".toList "port".toList (Value.vInt 50100) = Value.vStr [] :=
  getConfig_env_wins _ _ _ _ _ _ (by decide)

/-- Claim C2: when the environment variable is unset and the store has no
entry for `section[key]`, `GetConfig` returns the caller's default itself,
whichever of the three value types it has; no error is signalled (the
function is total into `Value`). -/
theorem getConfig_default_identity (env : Env) (store : Store) (sec key : Str)
    (d : Value)
    (hEnv : lookupEnv env (envKeyName sec key) = none)
    (hFile : fileValue store sec key = none) :
    GetConfig env store sec key d = d := by
  simp only [GetConfig, GetConfigS, hEnv]
  cases hS : lookupA sec store with
  | none => simp [hS]
  | some m =>
    have hK : lookupA key m = none := by simpa [fileValue, hS] using hFile
    simp [hS, hK]

/-- Witness for C2: with no environment entry and an empty store, a string,
an integer and a boolean default each come back unchanged. -/
theorem getConfig_default_identity_witness :
    GetConfig [] [] "app".toList "name".toList (Value.vStr "flask-echo".toList) =
      Value.vStr "flask-echo".toList ∧
    GetConfig [] [] "app".toList "port".toList (Value.vInt 50100) =
      Value.vInt 50100 ∧
    GetConfig [] [] "app".toList "debug".toList (Value.vBool false) =
      Value.vBool false :=
  ⟨getConfig_default_identity _ _ _ _ _ (by decide) (by decide),
   getConfig_default_identity _ _ _ _ _ (by decide) (by decide),
   getConfig_default_identity _ _ _ _ _ (by decide) (by decide)⟩

/-- Claim C3: `getBoolConfig` lower-cases and whitespace-trims the string
that `GetConfig` resolved (with the default formatted by `%t`), maps
`true/1/yes/on` to `true` and `false/0/no/off` to `false`, and returns the
original boolean default on any other string. -/
theorem getBoolConfig_token_mapping (env : Env) (store : Store) (sec key : Str)
    (d : Bool) (sv : Str)
    (h : GetConfig env store sec key (Value.vStr (goFormatBool d)) = Value.vStr sv) :
    getBoolConfig env store sec key d =
      if toLowerStr (trimSpace sv) ∈ trueTokens then true
      else if toLowerStr (trimSpace sv) ∈ falseTokens then false
      else d := by
  have h2 : (GetConfigS env store sec key (Value.vStr (goFormatBool d))).1 =
      Value.vStr sv := h
  simp only [getBoolConfig, getBoolConfigS, h2, trueTokens, falseTokens,
    List.mem_cons, List.not_mem_nil, or_false]
  split_ifs <;> rfl

/-- Witness for C3: file content `[app]` / `debug = YES` makes the boolean
accessor return `true` for default `false`. -/
theorem getBoolConfig_token_mapping_witness :
    getBoolConfig []
      (parseIniLines ([], []) ["[app]".toList, "debug = YES".toList]).2
      "app".toList "debug".toList false = true :=
  (getBoolConfig_token_mapping _ _ _ _ false "YES".toList (by decide)).trans
    (by decide)

/-- Claim C4: `getIntConfig` resolves with the default formatted by `%d` and
parses the result with `strconv.Atoi`; when parsing fails it returns the
caller's original integer default, and when parsing succeeds it returns the
parsed integer. -/
theorem getIntConfig_atoi_fallback (env : Env) (store : Store) (sec key : Str)
    (d : Int) (sv : Str)
    (h : GetConfig env store sec key (Value.vStr (goFormatInt d)) = Value.vStr sv) :
    (goAtoi sv = none → getIntConfig env store sec key d = d) ∧
    ∀ n : Int, goAtoi sv = some n → getIntConfig env store sec key d = n := by
  have h2 : (GetConfigS env store sec key (Value.vStr (goFormatInt d))).1 =
      Value.vStr sv := h
  constructor
  · intro hA
    simp [getIntConfig, getIntConfigS, h2, hA]
  · intro n hA
    simp [getIntConfig, getIntConfigS, h2, hA]

/-- Witness for C4: file value `not-a-number` does not parse, so the integer
accessor returns the original default `50100` (which is not zero). -/
theorem getIntConfig_atoi_fallback_witness :
    getIntConfig []
      (parseIniLines ([], []) ["[app]".toList, "port = not-a-number".toList]).2
      "app".toList "port".toList 50100 = 50100 ∧ (50100 : Int) ≠ 0 :=
  ⟨(getIntConfig_atoi_fallback _ _ _ _ 50100 "not-a-number".toList
      (by decide)).1 (by decide),
   by decide⟩

/-- Claim C5: a non-blank, non-comment, non-header line either has no `=` and
is silently skipped, or splits at its first `=` into a trimmed key and a
trimmed value with all outer quote characters stripped, which is stored under
the current section. -/
theorem parseLine_kv_split (raw line cs : Str) (st : Store)
    (hline : trimSpace raw = line)
    (h0 : line ≠ [])
    (h1 : line.head? ≠ some ';')
    (h2 : line.head? ≠ some '#')
    (h3 : ¬(line.head? = some '[' ∧ line.getLast? = some ']')) :
    ('=' ∉ line → parseLine (cs, st) raw = (cs, st)) ∧
    ∀ pre post, line = pre ++ '=' :: post → '=' ∉ pre →
      parseLine (cs, st) raw =
        (cs, if cs = [] then st
             else storeSet st cs (trimSpace pre) (trimQuoteChars (trimSpace post))) := by
  have hnc : ¬(line.head? = some ';' ∨ line.head? = some '#') := by
    intro hc
    cases hc with
    | inl hc => exact h1 hc
    | inr hc => exact h2 hc
  constructor
  · intro hmem
    simp only [parseLine, hline]
    rw [if_neg h0, if_neg hnc, if_neg h3, splitFirst_of_not_mem '=' line hmem]
  · intro pre post hsplit hpre
    simp only [parseLine, hline]
    rw [if_neg h0, if_neg hnc, if_neg h3, hsplit,
      splitFirst_append '=' pre post hpre]
    by_cases hcs : cs = []
    · simp [hcs]
    · simp [hcs]

/-- Witness for C5: under section `app`, the line `name = "my app"` stores the
key `name` with value `my app`, quotes stripped. -/
theorem parseLine_kv_split_witness :
    parseLine ("app".toList, [("app".toList, [])]) "name = \"my app\"".toList =
      ("app".toList, [("app".toList, [("name".toList, "my app".toList)])]) :=
  (((parseLine_kv_split "name = \"my app\"".toList "name = \"my app\"".toList
      "app".toList [("app".toList, [])] (by decide) (by decide) (by decide)
      (by decide) (by decide)).2
    "name ".toList " \"my app\"".toList (by decide) (by decide)).trans (by decide))

/-- Claim C6: runs of lines containing no `[section]` header, processed while
no section is current, leave the store untouched and the current section
empty: key/value lines before any header are silently discarded. -/
theorem preSection_lines_discarded (lines : List Str) (st : Store)
    (h : ∀ l ∈ lines,
      ¬((trimSpace l).head? = some '[' ∧ (trimSpace l).getLast? = some ']')) :
    parseIniLines ([], st) lines = ([], st) :=
  parseIniLines_no_header lines st h

/-- Witness for C6: a file consisting of `port=1234` with no preceding header
yields no entry for any section. -/
theorem preSection_lines_discarded_witness :
    parseIniLines ([], []) ["port=1234".toList] = ([], []) :=
  preSection_lines_discarded _ _ (by decide)

/-- Claim C7: a scan failure during parsing is only warned about: the store
after initialization is exactly the store built from the lines scanned before
the failure (here: any prefix of the file), identical to what an error-free
scan of those lines produces; a failure to find the file leaves the store
empty. `initConfig` is a total function, so initialization cannot crash. -/
theorem initConfig_keeps_partial_store (allLines : List Str) (k : Nat)
    (failed : Bool) :
    initConfig (some ⟨allLines.take k, failed⟩) =
      (parseIniLines ([], []) (allLines.take k)).2 ∧
    initConfig none = [] :=
  ⟨rfl, rfl⟩

/-- Claim C8: no lookup operation mutates the configuration store: in
state-passing form, `GetConfig` and both typed accessors return exactly the
store they were given, alongside their pure result. -/
theorem lookups_preserve_store (env : Env) (store : Store) (sec key : Str)
    (d : Value) (dI : Int) (dB : Bool) :
    GetConfigS env store sec key d = (GetConfig env store sec key d, store) ∧
    getIntConfigS env store sec key dI =
      (getIntConfig env store sec key dI, store) ∧
    getBoolConfigS env store sec key dB =
      (getBoolConfig env store sec key dB, store) := by
  refine ⟨?_, ?_, ?_⟩
  · have hs := GetConfigS_snd env store sec key d
    cases hv : GetConfigS env store sec key d with
    | mk a b =>
      rw [hv] at hs
      simp only [GetConfig, hv]
      simp at hs
      simp [hs]
  · have hs := getIntConfigS_snd env store sec key dI
    cases hv : getIntConfigS env store sec key dI with
    | mk a b =>
      rw [hv] at hs
      simp only [getIntConfig, hv]
      simp at hs
      simp [hs]
  · have hs := getBoolConfigS_snd env store sec key dB
    cases hv : getBoolConfigS env store sec key dB with
    | mk a b =>
      rw [hv] at hs
      simp only [getBoolConfig, hv]
      simp at hs
      simp [hs]

/-- Claim C9: a header whose bracketed name trims to the empty string resets
the current section to the empty string, so every following non-header line
is discarded exactly as before any header, while an empty-named section map
is still created in the store. -/
theorem empty_header_resets_section (raw cs : Str) (st : Store)
    (rest : List Str)
    (h1 : (trimSpace raw).head? = some '[')
    (h2 : (trimSpace raw).getLast? = some ']')
    (h3 : trimSpace (((trimSpace raw).drop 1).dropLast) = [])
    (h4 : ∀ l ∈ rest,
      ¬((trimSpace l).head? = some '[' ∧ (trimSpace l).getLast? = some ']')) :
    parseIniLines (cs, st) (raw :: rest) = ([], ensureSection st []) := by
  have hfirst := parseLine_header raw cs st h1 h2
  rw [h3] at hfirst
  have htail := parseIniLines_no_header rest (ensureSection st []) h4
  simp only [parseIniLines, List.foldl_cons] at htail ⊢
  rw [hfirst]
  exact htail

/-- Witness for C9: starting inside section `app`, the header `[ ]` followed
by `port = 9` leaves only a fresh empty-named empty section map. -/
theorem empty_header_resets_section_witness :
    parseIniLines ("app".toList, []) ["[ ]".toList, "port = 9".toList] =
      ([], [([], [])]) :=
  (empty_header_resets_section "[ ]".toList "app".toList [] ["port = 9".toList]
    (by decide) (by decide) (by decide) (by decide)).trans (by decide)

/-- Claim C10: re-encountering a `[section]` header whose name is already in
the store keeps the existing section map and the whole store unchanged; a
key/value line then merges into that same map, where a repeated key takes the
last value assigned and the other keys keep their earlier values. -/
theorem repeated_section_merges (cs : Str) (st : Store) (n : Str)
    (m : SectionMap) (raw k v k₂ : Str)
    (hmem : lookupA n st = some m)
    (h1 : (trimSpace raw).head? = some '[')
    (h2 : (trimSpace raw).getLast? = some ']')
    (h3 : trimSpace (((trimSpace raw).drop 1).dropLast) = n) :
    parseLine (cs, st) raw = (n, st) ∧
    lookupA n (storeSet st n k v) = some (setA k v m) ∧
    lookupA k (setA k v m) = some v ∧
    (k₂ ≠ k → lookupA k₂ (setA k v m) = lookupA k₂ m) := by
  refine ⟨?_, ?_, lookupA_setA_self k v m, fun hne => lookupA_setA_ne k k₂ v m hne⟩
  · have hhd := parseLine_header raw cs st h1 h2
    rw [h3] at hhd
    rw [hhd]
    simp [ensureSection, hmem]
  · simp [storeSet, hmem, lookupA_setA_self]

/-- Witness for C10: with `a.x = 1` already stored, the repeated header `[a]`
keeps the store; writing `x = 3` overwrites `x` and leaves `y` absent. -/
theorem repeated_section_merges_witness :
    parseLine ("a".toList, [("a".toList, [("x".toList, "1".toList)])])
        "[a]".toList =
      ("a".toList, [("a".toList, [("x".toList, "1".toList)])]) ∧
    lookupA "a".toList
        (storeSet [("a".toList, [("x".toList, "1".toList)])]
          "a".toList "x".toList "3".toList) =
      some [("x".toList, "3".toList)] ∧
    lookupA "x".toList
        (setA "x".toList "3".toList [("x".toList, "1".toList)]) =
      some "3".toList ∧
    lookupA "y".toList
        (setA "x".toList "3".toList [("x".toList, "1".toList)]) = none := by
  have h := repeated_section_merges "a".toList
    [("a".toList, [("x".toList, "1".toList)])] "a".toList
    [("x".toList, "1".toList)] "[a]".toList "x".toList "3".toList "y".toList
    (by decide) (by decide) (by decide) (by decide)
  exact ⟨h.1, h.2.1.trans (by decide), h.2.2.1,
    (h.2.2.2 (by decide)).trans (by decide)⟩

end Settings
